import Mathlib

/-!
Verification development for the chatbot-agil retrieval-augmented-answer
pipeline.  The Python data model and operations are shallowly embedded:
metadata dictionaries become association lists with in-place-update
semantics, fallible calls become `Except`, and external collaborators
(the generation backend, the vector store client, file loaders) become
function parameters.
-/

namespace ChatbotAgil

/-- A metadata scalar value: Python stores strings and ints in the
metadata mappings of this code base. -/
inductive MVal where
  | str : String → MVal
  | int : Int → MVal
deriving DecidableEq, Repr

/-- A Python dict from string keys to scalar values, as an association
list in insertion order. -/
abbrev Dict := List (String × MVal)

/-- `d[k] = v` for a Python dict: replace the value in place if the key
exists (keeping its position), else append the new binding. -/
def dSet (d : Dict) (k : String) (v : MVal) : Dict :=
  match d with
  | [] => [(k, v)]
  | (k0, v0) :: rest =>
      if k0 = k then (k0, v) :: rest else (k0, v0) :: dSet rest k v

/-- Dict lookup (first binding wins, as in a well-formed Python dict). -/
def dLookup (d : Dict) (k : String) : Option MVal :=
  match d with
  | [] => none
  | (k0, v0) :: rest => if k0 = k then some v0 else dLookup rest k

/-- `d.update(e)`: apply every binding of `e` in order via `dSet`. -/
def dUpdate (d : Dict) (e : Dict) : Dict :=
  e.foldl (fun acc kv => dSet acc kv.1 kv.2) d

/-- A langchain `Document`: page content plus a metadata dict. -/
structure Document where
  page_content : String
  metadata : Dict
deriving DecidableEq, Repr

/-- `MetadataHandler.enrich_metadata`: merge `extra` into the document's
metadata (skipped when `extra` is empty/None, matching the Python
truthiness test), then stamp `processed_at` and `content_hash` only if
absent.  The wall clock and Python's `hash` builtin are passed in as
`now` and `h`. -/
def enrich_metadata (h : String → Int) (now : String)
    (doc : Document) (extra : Dict) : Document :=
  let m1 := if extra.isEmpty then doc.metadata else dUpdate doc.metadata extra
  let m2 := if (dLookup m1 "processed_at").isSome then m1
            else dSet m1 "processed_at" (.str now)
  let m3 := if (dLookup m2 "content_hash").isSome then m2
            else dSet m2 "content_hash" (.int (h doc.page_content))
  { doc with metadata := m3 }

theorem dLookup_dSet_self (d : Dict) (k : String) (v : MVal) :
    dLookup (dSet d k v) k = some v := by
  induction d with
  | nil => simp [dSet, dLookup]
  | cons kv rest ih =>
      obtain ⟨k0, v0⟩ := kv
      by_cases hk : k0 = k <;> simp [dSet, dLookup, hk, ih]

theorem dLookup_dSet_ne (d : Dict) (k k' : String) (v : MVal)
    (hne : k' ≠ k) : dLookup (dSet d k' v) k = dLookup d k := by
  induction d with
  | nil => simp [dSet, dLookup, hne]
  | cons kv rest ih =>
      obtain ⟨k0, v0⟩ := kv
      by_cases hk : k0 = k'
      · subst hk
        simp [dSet, dLookup, hne]
      · by_cases hk0 : k0 = k
        · subst hk0
          simp [dSet, dLookup, hk]
        · simp [dSet, dLookup, hk, hk0, ih]

theorem dSet_of_lookup_eq (d : Dict) (k : String) (v : MVal)
    (hl : dLookup d k = some v) : dSet d k v = d := by
  induction d with
  | nil => simp [dLookup] at hl
  | cons kv rest ih =>
      obtain ⟨k0, v0⟩ := kv
      by_cases hk : k0 = k
      · subst hk
        simp [dLookup] at hl
        simp [dSet, hl]
      · simp [dLookup, hk] at hl
        simp [dSet, hk, ih hl]

theorem dLookup_dUpdate_notmem (d : Dict) (e : Dict) (k : String)
    (hk : ∀ kv ∈ e, kv.1 ≠ k) : dLookup (dUpdate d e) k = dLookup d k := by
  induction e generalizing d with
  | nil => simp [dUpdate]
  | cons kv rest ih =>
      have hkv : kv.1 ≠ k := hk kv (by simp)
      have hrest : ∀ kv2 ∈ rest, kv2.1 ≠ k := fun kv2 hm => hk kv2 (by simp [hm])
      show dLookup (dUpdate (dSet d kv.1 kv.2) rest) k = dLookup d k
      rw [ih (dSet d kv.1 kv.2) hrest, dLookup_dSet_ne d k kv.1 kv.2 hkv]

theorem dLookup_dUpdate_mem (d : Dict) (e : Dict) (k : String) (v : MVal)
    (hnd : (e.map Prod.fst).Nodup) (hmem : (k, v) ∈ e) :
    dLookup (dUpdate d e) k = some v := by
  induction e generalizing d with
  | nil => simp at hmem
  | cons kv rest ih =>
      obtain ⟨k1, v1⟩ := kv
      simp only [List.map_cons, List.nodup_cons] at hnd
      rcases List.mem_cons.mp hmem with heq | htail
      · cases heq
        have hrest : ∀ kv2 ∈ rest, kv2.1 ≠ k := by
          intro kv2 hm hcontra
          exact hnd.1 (List.mem_map.mpr ⟨kv2, hm, hcontra⟩)
        show dLookup (dUpdate (dSet d k v) rest) k = some v
        rw [dLookup_dUpdate_notmem (dSet d k v) rest k hrest,
          dLookup_dSet_self]
      · exact ih (dSet d k1 v1) hnd.2 htail

theorem dUpdate_self_of_lookup (d : Dict) (e : Dict)
    (hall : ∀ kv ∈ e, dLookup d kv.1 = some kv.2) : dUpdate d e = d := by
  induction e with
  | nil => rfl
  | cons kv rest ih =>
      have h1 : dSet d kv.1 kv.2 = d := dSet_of_lookup_eq d kv.1 kv.2 (hall kv (by simp))
      show dUpdate (dSet d kv.1 kv.2) rest = d
      rw [h1]
      exact ih (fun kv2 hm => hall kv2 (by simp [hm]))

theorem dLookup_stamp (m : Dict) (key k : String) (v vv : MVal)
    (hl : dLookup m k = some v) :
    dLookup (if (dLookup m key).isSome then m else dSet m key vv) k = some v := by
  by_cases hkey : (dLookup m key).isSome
  · simp [hkey, hl]
  · by_cases hk : k = key
    · subst hk
      simp [hl] at hkey
    · simp [hkey, dLookup_dSet_ne m k key vv (Ne.symm hk), hl]

theorem dLookup_stamp_self (m : Dict) (key : String) (vv : MVal) :
    (dLookup (if (dLookup m key).isSome then m else dSet m key vv) key).isSome = true := by
  by_cases hkey : (dLookup m key).isSome
  · simp [hkey]
  · simp [hkey, dLookup_dSet_self]

theorem dLookup_stamp_other (m : Dict) (key k : String) (vv : MVal) (hne : k ≠ key)
    (hs : (dLookup m k).isSome = true) :
    (dLookup (if (dLookup m key).isSome then m else dSet m key vv) k).isSome = true := by
  by_cases hkey : (dLookup m key).isSome
  · simp [hkey, hs]
  · simp [hkey, dLookup_dSet_ne m k key vv (Ne.symm hne), hs]

theorem dLookup_enrich_extra (h : String → Int) (now : String) (doc : Document)
    (extra : Dict) (hnd : (extra.map Prod.fst).Nodup) :
    ∀ kv ∈ extra,
      dLookup (enrich_metadata h now doc extra).metadata kv.1 = some kv.2 := by
  intro kv hm
  obtain ⟨k, v⟩ := kv
  have hne : extra.isEmpty = false := by
    cases extra with
    | nil => simp at hm
    | cons a l => rfl
  have h1 : dLookup (dUpdate doc.metadata extra) k = some v :=
    dLookup_dUpdate_mem doc.metadata extra k v hnd hm
  simp only [enrich_metadata, hne, Bool.false_eq_true, if_false]
  exact dLookup_stamp _ "content_hash" k v _ (dLookup_stamp _ "processed_at" k v _ h1)

theorem enrich_processed_isSome (h : String → Int) (now : String) (doc : Document)
    (extra : Dict) :
    (dLookup (enrich_metadata h now doc extra).metadata "processed_at").isSome = true := by
  simp only [enrich_metadata]
  exact dLookup_stamp_other _ "content_hash" "processed_at" _ (by decide)
    (dLookup_stamp_self _ "processed_at" _)

theorem enrich_hash_isSome (h : String → Int) (now : String) (doc : Document)
    (extra : Dict) :
    (dLookup (enrich_metadata h now doc extra).metadata "content_hash").isSome = true := by
  simp only [enrich_metadata]
  exact dLookup_stamp_self _ "content_hash" _

theorem enrich_metadata_noop (h : String → Int) (now : String) (doc2 : Document)
    (extra : Dict)
    (hall : ∀ kv ∈ extra, dLookup doc2.metadata kv.1 = some kv.2)
    (hpa : (dLookup doc2.metadata "processed_at").isSome = true)
    (hch : (dLookup doc2.metadata "content_hash").isSome = true) :
    enrich_metadata h now doc2 extra = doc2 := by
  have hm1 : (if extra.isEmpty then doc2.metadata else dUpdate doc2.metadata extra)
      = doc2.metadata := by
    by_cases hext : extra.isEmpty
    · simp [hext]
    · simp [hext, dUpdate_self_of_lookup _ _ hall]
  simp only [enrich_metadata, hm1, hpa, hch, if_true]

/-- C7: `MetadataHandler.enrich_metadata` is idempotent — re-enriching an
already-enriched document with the same `extra` (a Python dict: keys are
distinct) returns the document unchanged; the `processed_at` timestamp and
`content_hash` are stamped only on the first application, and a different
clock value `now2` on the second application changes nothing. -/
theorem C7_enrich_metadata_idempotent (h : String → Int) (now1 now2 : String)
    (doc : Document) (extra : Dict) (hnd : (extra.map Prod.fst).Nodup) :
    enrich_metadata h now2 (enrich_metadata h now1 doc extra) extra
      = enrich_metadata h now1 doc extra := by
  apply enrich_metadata_noop
  · exact dLookup_enrich_extra h now1 doc extra hnd
  · exact enrich_processed_isSome h now1 doc extra
  · exact enrich_hash_isSome h now1 doc extra

/-- Witness for C7 at a concrete document and `extra`. -/
theorem C7_enrich_metadata_idempotent_witness :
    enrich_metadata (fun _ => (42 : Int)) "2024-02-02T00:00:00"
        (enrich_metadata (fun _ => (42 : Int)) "2024-01-01T00:00:00"
          ⟨"hello agile", [("source_file", .str "A.pdf")]⟩
          [("category", .str "scrum"), ("page", .int 1)])
        [("category", .str "scrum"), ("page", .int 1)]
      = enrich_metadata (fun _ => (42 : Int)) "2024-01-01T00:00:00"
          ⟨"hello agile", [("source_file", .str "A.pdf")]⟩
          [("category", .str "scrum"), ("page", .int 1)] :=
  C7_enrich_metadata_idempotent (fun _ => (42 : Int)) "2024-01-01T00:00:00"
    "2024-02-02T00:00:00" ⟨"hello agile", [("source_file", .str "A.pdf")]⟩
    [("category", .str "scrum"), ("page", .int 1)] (by decide)

/-- Heap-style embedding of the in-place mutation performed by
`MetadataHandler.enrich_metadata`: documents live in a store addressed by
index, the call `document.metadata.update(...)` overwrites the addressed
cell, and the function returns the very same reference it was given. -/
def enrich_metadata_at (h : String → Int) (now : String) (heap : List Document)
    (ref : Nat) (extra : Dict) : Nat × List Document :=
  (ref, heap.set ref (enrich_metadata h now (heap.getD ref ⟨"", []⟩) extra))

/-- C9: `enrich_metadata` mutates its argument in place — the returned
reference is the argument reference, the addressed store cell now holds the
enriched document (so the pre-enrichment draft is overwritten), and every
other cell is untouched. -/
theorem C9_enrich_metadata_in_place (h : String → Int) (now : String)
    (heap : List Document) (ref : Nat) (extra : Dict) (href : ref < heap.length) :
    (enrich_metadata_at h now heap ref extra).1 = ref
    ∧ (enrich_metadata_at h now heap ref extra).2[ref]?
        = some (enrich_metadata h now (heap.getD ref ⟨"", []⟩) extra)
    ∧ ∀ j, j ≠ ref → (enrich_metadata_at h now heap ref extra).2[j]? = heap[j]? := by
  refine ⟨rfl, ?_, ?_⟩
  · exact List.getElem?_set_eq_of_lt _ href
  · intro j hj
    exact List.getElem?_set_ne (fun hcontra => hj hcontra.symm)

/-- Witness for C9: a one-cell store whose document visibly changes —
after the call the cell no longer holds the original draft. -/
theorem C9_enrich_metadata_in_place_witness :
    ((enrich_metadata_at (fun _ => (7 : Int)) "2024-01-01"
        [⟨"scrum basics", []⟩] 0 [("category", .str "scrum")]).1 = 0
      ∧ (enrich_metadata_at (fun _ => (7 : Int)) "2024-01-01"
          [⟨"scrum basics", []⟩] 0 [("category", .str "scrum")]).2[0]?
          = some (enrich_metadata (fun _ => (7 : Int)) "2024-01-01"
              (([⟨"scrum basics", []⟩] : List Document).getD 0 ⟨"", []⟩)
              [("category", .str "scrum")])
      ∧ ∀ j, j ≠ 0 → (enrich_metadata_at (fun _ => (7 : Int)) "2024-01-01"
          [⟨"scrum basics", []⟩] 0 [("category", .str "scrum")]).2[j]?
          = ([⟨"scrum basics", []⟩] : List Document)[j]?)
    ∧ (enrich_metadata_at (fun _ => (7 : Int)) "2024-01-01"
        [⟨"scrum basics", []⟩] 0 [("category", .str "scrum")]).2[0]?
        ≠ some ⟨"scrum basics", []⟩ :=
  ⟨C9_enrich_metadata_in_place (fun _ => (7 : Int)) "2024-01-01"
      [⟨"scrum basics", []⟩] 0 [("category", .str "scrum")] (by decide),
    by decide⟩

/-- `MetadataHandler.extract_citation_info`: project a document's metadata
onto a citation dict with defaults `Unknown`/`General`/`N/A`, appending
`title` and `author` only when present. -/
def extract_citation_info (doc : Document) : Dict :=
  let md := doc.metadata
  let c1 : Dict :=
    [("source_document", (dLookup md "source_file").getD (.str "Unknown")),
     ("category", (dLookup md "category").getD (.str "General")),
     ("section", (dLookup md "section").getD (.str "N/A")),
     ("page", (dLookup md "page").getD (.str "N/A"))]
  let c2 := match dLookup md "title" with
    | some t => dSet c1 "title" t
    | none => c1
  match dLookup md "author" with
    | some a => dSet c2 "author" a
    | none => c2

/-- The deduplication key used by `aggregate_sources`:
`(citation['source_document'], citation.get('page', 'N/A'))`. -/
def citationKey (c : Dict) : MVal × MVal :=
  ((dLookup c "source_document").getD (.str "Unknown"),
   (dLookup c "page").getD (.str "N/A"))

/-- `MetadataHandler.aggregate_sources`: fold over the documents keeping a
seen-key set and an output list, appending a citation only when its key is
new. -/
def aggregate_sources (docs : List Document) : List Dict :=
  (docs.foldl (fun st doc =>
      let c := extract_citation_info doc
      let key := citationKey c
      if key ∈ st.1 then st else (key :: st.1, st.2 ++ [c]))
    (([] : List (MVal × MVal)), ([] : List Dict))).2

/-- Spec-side reference for `aggregate`: iterate citations in input order,
keep the first occurrence per `(source_document, page)` key, preserve
first-seen order (stable dedup, not sorted). -/
def specStableDedup (seen : List (MVal × MVal)) : List Dict → List Dict
  | [] => []
  | c :: cs =>
      if citationKey c ∈ seen then specStableDedup seen cs
      else c :: specStableDedup (citationKey c :: seen) cs

theorem aggregate_foldl_spec (docs : List Document) :
    ∀ (seen : List (MVal × MVal)) (acc : List Dict),
      (docs.foldl (fun st doc =>
          let c := extract_citation_info doc
          let key := citationKey c
          if key ∈ st.1 then st else (key :: st.1, st.2 ++ [c]))
        (seen, acc)).2
      = acc ++ specStableDedup seen (docs.map extract_citation_info) := by
  induction docs with
  | nil => intro seen acc; simp [specStableDedup]
  | cons d ds ih =>
      intro seen acc
      by_cases hmem : citationKey (extract_citation_info d) ∈ seen
      · simp only [List.foldl_cons, List.map_cons, specStableDedup, hmem,
          if_true, ih]
      · simp only [List.foldl_cons, List.map_cons, specStableDedup, hmem,
          if_false, ih, List.append_assoc, List.singleton_append]

/-- C6: `aggregate_sources` is exactly the spec's stable first-occurrence
deduplication on the `(source_document, page)` key, and on the three units
`A.pdf@1`, `A.pdf@1` (a second, different record with the same key) and
`B.pdf@2` it returns exactly the first `A.pdf@1` record then the `B.pdf@2`
record, in first-seen order. -/
theorem C6_aggregate_sources_stable_dedup :
    (∀ docs : List Document,
        aggregate_sources docs
          = specStableDedup [] (docs.map extract_citation_info))
    ∧ aggregate_sources
        [⟨"intro", [("source_file", .str "A.pdf"), ("page", .int 1)]⟩,
         ⟨"more", [("source_file", .str "A.pdf"), ("page", .int 1),
                   ("section", .str "dup-section")]⟩,
         ⟨"other", [("source_file", .str "B.pdf"), ("page", .int 2)]⟩]
      = [[("source_document", .str "A.pdf"), ("category", .str "General"),
          ("section", .str "N/A"), ("page", .int 1)],
         [("source_document", .str "B.pdf"), ("category", .str "General"),
          ("section", .str "N/A"), ("page", .int 2)]] := by
  constructor
  · intro docs
    exact aggregate_foldl_spec docs [] []
  · decide

/-- `VectorStore.get_collection_count`: the outcome of the ChromaDB calls
`client.get_collection(name).count()` is the parameter `c`; the Python
wraps them in try/except and returns 0 on any error.  The result is an
`Except` so that surfacing vs. swallowing an error is observable. -/
def get_collection_count (c : Except String Nat) : Except String Nat :=
  match c with
  | .ok n => .ok n
  | .error _ => .ok 0

/-- `VectorStore.delete_documents`: the outcome of `vectorstore.delete` is
the parameter `r`; the Python returns `True` on success and `False` on any
caught error. -/
def delete_documents (r : Except String Unit) : Except String Bool :=
  match r with
  | .ok _ => .ok true
  | .error _ => .ok false

/-- C4 counterexample: with the persistent store unavailable, `count`
returns 0 instead of surfacing the underlying error, and `delete` returns
`False` — exactly the downgrade-to-empty-result the claim rules out. -/
theorem C4_counterexample :
    get_collection_count (Except.error "store unavailable") = Except.ok 0
    ∧ get_collection_count (Except.error "store unavailable")
        ≠ Except.error "store unavailable"
    ∧ delete_documents (Except.error "corrupt persistence") = Except.ok false := by
  refine ⟨rfl, ?_, rfl⟩
  intro h
  simp [get_collection_count] at h

/-- C4 amended: `get_collection_count` and `delete_documents` catch every
underlying store error and downgrade it — the count becomes 0 and the
delete flag becomes `False`; only success values pass through, and neither
call ever surfaces an error to its caller. -/
theorem C4_amended_store_errors_downgraded :
    (∀ e : String, get_collection_count (Except.error e) = Except.ok 0)
    ∧ (∀ n : Nat, get_collection_count (Except.ok n) = Except.ok n)
    ∧ (∀ e : String, delete_documents (Except.error e) = Except.ok false)
    ∧ delete_documents (Except.ok ()) = Except.ok true
    ∧ (∀ c : Except String Nat, ∃ n, get_collection_count c = Except.ok n)
    ∧ (∀ r : Except String Unit, ∃ b, delete_documents r = Except.ok b) := by
  refine ⟨fun e => rfl, fun n => rfl, fun e => rfl, rfl, ?_, ?_⟩
  · intro c
    cases c with
    | ok n => exact ⟨n, rfl⟩
    | error e => exact ⟨0, rfl⟩
  · intro r
    cases r with
    | ok u => exact ⟨true, rfl⟩
    | error e => exact ⟨false, rfl⟩

/-- Index of the first occurrence of `pat` in a character list (`none`
when absent); the empty pattern matches at position 0. -/
def findSub (pat : List Char) : List Char → Option Nat
  | [] => if pat.isEmpty then some 0 else none
  | c :: rest =>
      if pat.isPrefixOf (c :: rest) then some 0
      else (findSub pat rest).map (· + 1)

/-- Python's `pat in s` substring test. -/
def containsSub (pat s : String) : Bool :=
  (findSub pat.toList s.toList).isSome

/-- Python's `str.lower()` (ASCII case folding, which covers every
extension and keyword this code compares). -/
def pyLower (s : String) : String := ⟨s.data.map Char.toLower⟩

/-- A file path as the loaders see it: the full path string, the final
component `name`, and the extension `suffix` (with its dot). -/
structure PyPath where
  full : String
  name : String
  suffix : String
deriving DecidableEq, Repr

/-- `DocumentLoader._infer_category`: case-insensitive keyword match
against the whole path. -/
def infer_category (p : PyPath) : String :=
  let s := pyLower p.full
  if containsSub "scrum" s then "scrum"
  else if containsSub "kanban" s then "kanban"
  else if containsSub "silabo" s || containsSub "syllabus" s then "syllabus"
  else "general"

/-- The concrete loader classes the dispatch tables select between. -/
inductive LoaderKind where
  | pyPDF
  | docx2txt
  | textLoader
  | unstructuredMarkdown
deriving DecidableEq, Repr

/-- `DocumentLoader.SUPPORTED_EXTENSIONS` — the four-key dict, as its
key-to-loader mapping. -/
def loaderFor (ext : String) : Option LoaderKind :=
  if ext = ".pdf" then some .pyPDF
  else if ext = ".docx" then some .docx2txt
  else if ext = ".txt" then some .textLoader
  else if ext = ".md" then some .unstructuredMarkdown
  else none

/-- The key list of `DocumentLoader.SUPPORTED_EXTENSIONS`, as interpolated
into the `ValueError` message. -/
def supportedExtensionKeys : List String := [".pdf", ".docx", ".txt", ".md"]

/-- Structured counterpart of the loaders' raised errors: the unsupported
variants carry exactly what the Python interpolates into the message (the
offending extension and the supported-format listing). -/
inductive LoadErr where
  | unsupported (ext : String) (supported : List String)
  | unsupportedNamed (ext : String) (supportedNamed : String)
  | notFound (path : String)
  | ioError (msg : String)
deriving DecidableEq, Repr

/-- `DocumentLoader.load_single_document`: reject unknown extensions
(case-insensitively), else run the dispatched loader (`loadFile`) and
stamp `source_file`, `source_path`, `category` and `file_type` on every
produced document; loader failures are re-raised. -/
def load_single_document
    (loadFile : LoaderKind → PyPath → Except String (List Document))
    (p : PyPath) (category : Option String) : Except LoadErr (List Document) :=
  let ext := pyLower p.suffix
  match loaderFor ext with
  | none => .error (.unsupported ext supportedExtensionKeys)
  | some kind =>
      match loadFile kind p with
      | .error e => .error (.ioError e)
      | .ok docs => .ok (docs.map (fun d =>
          let stamps : Dict :=
            [("source_file", .str p.name),
             ("source_path", .str p.full),
             ("category", .str (match category with
               | some c => if c.isEmpty then infer_category p else c
               | none => infer_category p)),
             ("file_type", .str (ext.drop 1))]
          { d with metadata := dUpdate d.metadata stamps }))

/-- The if/elif extension dispatch of `DocumentProcessor.load_document`. -/
def processorLoaderFor (ext : String) : Option LoaderKind :=
  if ext = ".pdf" then some .pyPDF
  else if ext = ".txt" then some .textLoader
  else if ext = ".docx" ∨ ext = ".doc" then some .docx2txt
  else if ext = ".md" ∨ ext = ".markdown" then some .unstructuredMarkdown
  else none

/-- `DocumentProcessor.load_document`: not-found check, then the if/elif
dispatch (whose error message names `.pdf, .txt, .docx, .doc, .md` — not
`.markdown`), then the loader, then the `source`/`filename`/`file_type`/
`file_hash` stamps. -/
def dp_load_document (fileOnDisk : Bool)
    (loadFile : LoaderKind → PyPath → Except String (List Document))
    (fileHash : String) (p : PyPath) : Except LoadErr (List Document) :=
  if !fileOnDisk then .error (.notFound p.full)
  else
    let ext := pyLower p.suffix
    match processorLoaderFor ext with
    | none => .error (.unsupportedNamed ext ".pdf, .txt, .docx, .doc, .md")
    | some kind =>
        match loadFile kind p with
        | .error e => .error (.ioError e)
        | .ok docs => .ok (docs.map (fun d =>
            let stamps : Dict :=
              [("source", .str p.full),
               ("filename", .str p.name),
               ("file_type", .str (ext.drop 1)),
               ("file_hash", .str fileHash)]
            { d with metadata := dUpdate d.metadata stamps }))

/-- C5 counterexample: `.doc` is in the claim's supported set, yet
`DocumentLoader.load_single_document` fails to dispatch it and raises the
format error naming the extension and its four-element supported set. -/
theorem C5_counterexample :
    loaderFor ".doc" = none
    ∧ load_single_document (fun _ _ => .ok []) ⟨"data/x.doc", "x.doc", ".doc"⟩ none
        = .error (.unsupported ".doc" [".pdf", ".docx", ".txt", ".md"])
    ∧ ".doc" ∈ ([".pdf", ".docx", ".doc", ".txt", ".md", ".markdown"] : List String) := by
  refine ⟨rfl, rfl, by decide⟩

/-- C5 amended: the two single-file loaders disagree on the supported set.
`DocumentLoader.load_single_document` dispatches (case-insensitively)
exactly for `.pdf`, `.docx`, `.txt`, `.md`, raising a format error naming
the extension and that four-element set otherwise; only
`DocumentProcessor.load_document` accepts the claim's full set
`.pdf`, `.txt`, `.docx`, `.doc`, `.md`, `.markdown`, and its error names
the extension and a supported listing that omits `.markdown`. -/
theorem C5_amended_extension_dispatch :
    (∀ ext : String,
        (loaderFor ext).isSome = true ↔ ext ∈ [".pdf", ".docx", ".txt", ".md"])
    ∧ (∀ ext : String,
        (processorLoaderFor ext).isSome = true
          ↔ ext ∈ [".pdf", ".txt", ".docx", ".doc", ".md", ".markdown"])
    ∧ (∀ (loadFile : LoaderKind → PyPath → Except String (List Document))
        (p : PyPath) (cat : Option String),
        loaderFor (pyLower p.suffix) = none →
          load_single_document loadFile p cat
            = .error (.unsupported (pyLower p.suffix) supportedExtensionKeys))
    ∧ (∀ (loadFile : LoaderKind → PyPath → Except String (List Document))
        (fh : String) (p : PyPath),
        processorLoaderFor (pyLower p.suffix) = none →
          dp_load_document true loadFile fh p
            = .error (.unsupportedNamed (pyLower p.suffix)
                ".pdf, .txt, .docx, .doc, .md")) := by
  refine ⟨?_, ?_, ?_, ?_⟩
  · intro ext
    simp only [loaderFor]
    split_ifs with h1 h2 h3 h4 <;> simp_all
  · intro ext
    simp only [processorLoaderFor]
    split_ifs with h1 h2 h3 h4 <;> (simp_all; try tauto)
  · intro loadFile p cat hnone
    simp [load_single_document, hnone]
  · intro loadFile fh p hnone
    simp [dp_load_document, hnone]

/-- Witness for C5 amended: the dispatch characterizations at `.docx`, and
the format-error shape at a concrete `.markdown` path. -/
theorem C5_amended_extension_dispatch_witness :
    ((loaderFor ".docx").isSome = true ↔ ".docx" ∈ [".pdf", ".docx", ".txt", ".md"])
    ∧ load_single_document (fun _ _ => .ok [])
        ⟨"a/b.markdown", "b.markdown", ".markdown"⟩ none
        = .error (.unsupported (pyLower ".markdown") supportedExtensionKeys) :=
  ⟨C5_amended_extension_dispatch.1 ".docx",
   C5_amended_extension_dispatch.2.2.1 (fun _ _ => .ok [])
     ⟨"a/b.markdown", "b.markdown", ".markdown"⟩ none (by decide)⟩

/-- `DocumentLoader.load_documents_from_directory`: iterate the enumerated
files, load each through `load_single_document` with the inferred
category, extend the batch on success, and on any per-file error log and
`continue` — the failing file is skipped. -/
def load_documents_from_directory
    (loadFile : LoaderKind → PyPath → Except String (List Document))
    (files : List PyPath) : List Document :=
  files.foldl (fun acc f =>
    match load_single_document loadFile f (some (infer_category f)) with
    | .ok docs => acc ++ docs
    | .error _ => acc) []

theorem load_directory_foldl (loadFile : LoaderKind → PyPath → Except String (List Document))
    (files : List PyPath) :
    ∀ acc : List Document,
      files.foldl (fun acc f =>
        match load_single_document loadFile f (some (infer_category f)) with
        | .ok docs => acc ++ docs
        | .error _ => acc) acc
      = acc ++ (files.map (fun f =>
          match load_single_document loadFile f (some (infer_category f)) with
          | .ok docs => docs
          | .error _ => [])).flatten := by
  induction files with
  | nil => intro acc; simp
  | cons f fs ih =>
      intro acc
      cases hf : load_single_document loadFile f (some (infer_category f)) with
      | ok docs => simp [hf, ih, List.append_assoc]
      | error e => simp [hf, ih]

/-- C8: directory-level load never aborts on a failing file — it returns
exactly the concatenation of the per-file successes, every failing file
contributing nothing; in particular with a corrupt file in the middle of
the enumeration, the units of the surrounding files are all returned. -/
theorem C8_directory_load_skips_failures :
    (∀ (loadFile : LoaderKind → PyPath → Except String (List Document))
        (files : List PyPath),
      load_documents_from_directory loadFile files
        = (files.map (fun f =>
            match load_single_document loadFile f (some (infer_category f)) with
            | .ok docs => docs
            | .error _ => [])).flatten)
    ∧ load_documents_from_directory
        (fun _ p => if p.name = "bad.pdf" then .error "corrupt file"
                    else .ok [⟨p.name, []⟩])
        [⟨"data/good1.pdf", "good1.pdf", ".pdf"⟩,
         ⟨"data/bad.pdf", "bad.pdf", ".pdf"⟩,
         ⟨"data/good2.txt", "good2.txt", ".txt"⟩]
      = [⟨"good1.pdf",
          [("source_file", .str "good1.pdf"),
           ("source_path", .str "data/good1.pdf"),
           ("category", .str "general"), ("file_type", .str "pdf")]⟩,
         ⟨"good2.txt",
          [("source_file", .str "good2.txt"),
           ("source_path", .str "data/good2.txt"),
           ("category", .str "general"), ("file_type", .str "txt")]⟩] := by
  constructor
  · intro loadFile files
    exact load_directory_foldl loadFile files []
  · decide

/-- A value in the result dicts built by `RAGRetriever.query` and
`ChatbotAgent.chat`: strings, ints, booleans, Python `None`, and the
`sources` list whose entries `{content, metadata}` are exactly a
document's two fields. -/
inductive RVal where
  | str : String → RVal
  | int : Int → RVal
  | bool : Bool → RVal
  | pynone : RVal
  | srcs : List Document → RVal
deriving DecidableEq, Repr

/-- A Python result dict over `RVal` values. -/
abbrev RDict := List (String × RVal)

/-- Result-dict lookup. -/
def rLookup (d : RDict) (k : String) : Option RVal :=
  match d with
  | [] => none
  | (k0, v0) :: rest => if k0 = k then some v0 else rLookup rest k

/-- Python `str.strip()`: drop whitespace from both ends. -/
def pyStrip (s : String) : String :=
  ⟨((s.data.dropWhile Char.isWhitespace).reverse.dropWhile Char.isWhitespace).reverse⟩

/-- `separator.join(items)`. -/
def joinSep (sep : String) : List String → String
  | [] => ""
  | [x] => x
  | x :: xs => x ++ sep ++ joinSep sep xs

/-- The fixed insufficient-knowledge answer of `RAGRetriever.query`. -/
def INSUFFICIENT_MSG : String :=
  "I couldn't find any relevant information to answer your question."

/-- `RAGRetriever.DEFAULT_PROMPT_TEMPLATE` as instantiated by
`self.prompt.format(context=..., question=...)`. -/
def formatPrompt (context question : String) : String :=
  "You are a helpful AI assistant. Use the following pieces of context to answer the question at the end. \nIf you don't know the answer based on the context provided, just say that you don't know, don't try to make up an answer.\n\nContext:\n"
    ++ context ++ "\n\nQuestion: " ++ question ++ "\n\nAnswer: "

/-- `RAGRetriever.query`, with the retrieval result (`documents`) and the
generation backend (`llm.predict`) as parameters; a raised exception is
`Except.error`.  On empty retrieval the returned dict has the keys
`answer` and `sources` only; on the generation path it has `answer`,
`num_sources` and (on request) `sources`. -/
def rag_query (llm : String → Except String String) (documents : List Document)
    (question : String) (return_sources : Bool) : Except String RDict :=
  if documents.isEmpty then
    .ok [("answer", .str INSUFFICIENT_MSG),
         ("sources", if return_sources then .srcs [] else .pynone)]
  else
    let context := joinSep "\n\n" (documents.map (·.page_content))
    match llm (formatPrompt context question) with
    | .error e => .error e
    | .ok response =>
        let base : RDict := [("answer", .str (pyStrip response)),
                             ("num_sources", .int documents.length)]
        .ok (if return_sources then base ++ [("sources", .srcs documents)] else base)

/-- `ChatbotAgent._query_knowledge_base`: take the outcome of
`rag_query(..., return_sources=False)`, return `result["answer"]`, and
convert any exception into the degraded
`"Error accessing knowledge base: ..."` string. -/
def query_knowledge_base (r : Except String RDict) : String :=
  match r with
  | .error e => "Error accessing knowledge base: " ++ e
  | .ok d =>
      match rLookup d "answer" with
      | some (.str a) => a
      | _ => "Error accessing knowledge base: 'answer'"

/-- C1 counterexample: with one retrieved document and a backend whose
generate call raises, `RAGRetriever.query` propagates the raw backend
error to its caller instead of returning a degraded answer string. -/
theorem C1_counterexample :
    rag_query (fun _ => .error "backend down") [⟨"ctx", []⟩] "q" false
      = .error "backend down" := rfl

/-- C1 amended: a generation-backend error is not caught inside
`RAGRetriever.query` — the raw exception propagates out of `query`; the
conversion into a degraded answer string carrying the error message
happens one layer up, in `ChatbotAgent._query_knowledge_base`, which
catches every exception and never propagates. -/
theorem C1_amended_backend_error_caught_in_agent
    (llm : String → Except String String) (documents : List Document)
    (question : String) (rs : Bool) (e : String)
    (hne : documents ≠ [])
    (hllm : llm (formatPrompt (joinSep "\n\n" (documents.map (·.page_content)))
        question) = .error e) :
    rag_query llm documents question rs = .error e
    ∧ query_knowledge_base (rag_query llm documents question false)
        = "Error accessing knowledge base: " ++ e := by
  cases documents with
  | nil => exact absurd rfl hne
  | cons d ds =>
      constructor
      · simp only [rag_query, List.isEmpty_cons, Bool.false_eq_true, if_false]
        rw [hllm]
      · have h1 : rag_query llm (d :: ds) question false = .error e := by
          simp only [rag_query, List.isEmpty_cons, Bool.false_eq_true, if_false]
          rw [hllm]
        rw [h1]
        rfl

/-- Witness for C1 amended: a concrete document list and erroring backend. -/
theorem C1_amended_backend_error_caught_in_agent_witness :
    rag_query (fun _ => .error "backend down") [⟨"ctx", []⟩] "q" true
      = .error "backend down"
    ∧ query_knowledge_base
        (rag_query (fun _ => .error "backend down") [⟨"ctx", []⟩] "q" false)
      = "Error accessing knowledge base: backend down" :=
  C1_amended_backend_error_caught_in_agent (fun _ => .error "backend down")
    [⟨"ctx", []⟩] "q" true "backend down" (by simp) rfl

/-- C2 counterexample: on empty retrieval the result dict of
`RAGRetriever.query` has no `num_sources` key at all — in particular its
`num_sources` is not 0. -/
theorem C2_counterexample :
    rag_query (fun _ => .ok "generated") [] "q" false
      = .ok [("answer", .str INSUFFICIENT_MSG), ("sources", .pynone)]
    ∧ rLookup [("answer", .str INSUFFICIENT_MSG), ("sources", .pynone)]
        "num_sources" = none
    ∧ ¬ rLookup [("answer", .str INSUFFICIENT_MSG), ("sources", .pynone)]
        "num_sources" = some (.int 0) := by
  refine ⟨rfl, rfl, by decide⟩

/-- C2 amended: on empty retrieval `RAGRetriever.query` returns the fixed
insufficient-knowledge answer without invoking the generation backend
(the result is identical for every backend and even every question), with
`sources` equal to `[]` or `None` according to `return_sources`; the
returned dict carries no `num_sources` key (rather than `num_sources = 0`
as claimed). -/
theorem C2_amended_empty_retrieval
    (llm llm2 : String → Except String String)
    (question question2 : String) (rs : Bool) :
    rag_query llm [] question rs
      = .ok [("answer", .str INSUFFICIENT_MSG),
             ("sources", if rs then .srcs [] else .pynone)]
    ∧ rag_query llm [] question rs = rag_query llm2 [] question2 rs
    ∧ rLookup [("answer", .str INSUFFICIENT_MSG),
               ("sources", if rs then .srcs [] else .pynone)]
        "num_sources" = none := by
  refine ⟨rfl, rfl, rfl⟩

/-- An LLM provider as `ChatbotAgent` uses it: per `BaseLLMProvider` and
its four implementations, `get_provider_name` and `get_default_model`
return constant strings, while `get_llm` (lazy client construction) may
raise; the returned model's `predict` may raise as well. -/
structure Provider where
  name : String
  defaultModel : String
  getLlm : Except String (String → Except String String)

/-- The body of the `try` block of `ChatbotAgent.chat`: the code's branch
structure over agent availability (`hasRag`/`hasSearch` — whether a
retriever / search tool was configured, hence whether tools exist) and the
per-call `use_rag`/`use_search` flags; `agentRun` covers
`initialize_agent` plus `temp_agent.run`. -/
def chatTryBody (p : Provider) (agentRun : String → Except String String)
    (hasRag hasSearch useRag useSearch : Bool) (message : String) :
    Except String String :=
  if (hasRag || hasSearch) && (useRag || useSearch) then
    if (useRag && hasRag) || (useSearch && hasSearch) then agentRun message
    else
      match p.getLlm with
      | .error e => .error e
      | .ok llm => llm message
  else
    match p.getLlm with
    | .error e => .error e
    | .ok llm => llm message

/-- `ChatbotAgent.chat`: the try/except wrapper around `chatTryBody`.  The
except handler builds its dict from the constant provider accessors only,
so it cannot itself raise. -/
def chat (p : Provider) (agentRun : String → Except String String)
    (hasRag hasSearch useRag useSearch : Bool) (message : String) :
    Except String RDict :=
  match chatTryBody p agentRun hasRag hasSearch useRag useSearch message with
  | .ok response =>
      .ok [("response", .str response),
           ("provider", .str p.name),
           ("model", .str p.defaultModel),
           ("used_rag", .bool (useRag && hasRag)),
           ("used_search", .bool (useSearch && hasSearch))]
  | .error e =>
      .ok [("response", .str ("I encountered an error: " ++ e)),
           ("error", .str e),
           ("provider", .str p.name),
           ("model", .str p.defaultModel)]

/-- C10: `ChatbotAgent.chat` never raises — for every provider backend,
agent outcome, flag combination and message it returns a result dict; and
whenever any step of the body throws, the returned dict's `response`
carries the error message and an `error` field is present. -/
theorem C10_chat_never_raises (p : Provider)
    (agentRun : String → Except String String)
    (hasRag hasSearch useRag useSearch : Bool) (message : String) :
    (∃ d : RDict,
      chat p agentRun hasRag hasSearch useRag useSearch message = .ok d)
    ∧ ∀ e : String,
        chatTryBody p agentRun hasRag hasSearch useRag useSearch message
          = .error e →
        chat p agentRun hasRag hasSearch useRag useSearch message
          = .ok [("response", .str ("I encountered an error: " ++ e)),
                 ("error", .str e),
                 ("provider", .str p.name),
                 ("model", .str p.defaultModel)] := by
  constructor
  · cases h : chatTryBody p agentRun hasRag hasSearch useRag useSearch message with
    | ok r =>
        exact ⟨[("response", .str r), ("provider", .str p.name),
                ("model", .str p.defaultModel),
                ("used_rag", .bool (useRag && hasRag)),
                ("used_search", .bool (useSearch && hasSearch))],
          by simp [chat, h]⟩
    | error e =>
        exact ⟨[("response", .str ("I encountered an error: " ++ e)),
                ("error", .str e), ("provider", .str p.name),
                ("model", .str p.defaultModel)],
          by simp [chat, h]⟩
  · intro e he
    simp [chat, he]

/-- Witness for C10: a provider whose `predict` raises a rate-limit error;
`chat` still answers with the degraded dict. -/
theorem C10_chat_never_raises_witness :
    (∃ d : RDict,
      chat ⟨"openai", "gpt-4-turbo-preview", .ok (fun _ => .error "rate limited")⟩
        (fun _ => .error "agent budget exceeded") true true false false "hola"
        = .ok d)
    ∧ chat ⟨"openai", "gpt-4-turbo-preview", .ok (fun _ => .error "rate limited")⟩
        (fun _ => .error "agent budget exceeded") true true false false "hola"
      = .ok [("response", .str ("I encountered an error: " ++ "rate limited")),
             ("error", .str "rate limited"),
             ("provider", .str "openai"),
             ("model", .str "gpt-4-turbo-preview")] := by
  have h := C10_chat_never_raises
    ⟨"openai", "gpt-4-turbo-preview", .ok (fun _ => .error "rate limited")⟩
    (fun _ => .error "agent budget exceeded") true true false false "hola"
  exact ⟨h.1, h.2 "rate limited" rfl⟩

/-- One run of `re.split`-with-kept-separator: cut `text` at every
occurrence of `sep`, attaching each separator occurrence to the front of
the following piece, so that the pieces concatenate back to `text`. -/
def splitKeepFuel (sep : List Char) : Nat → List Char → List (List Char)
  | 0, text => [text]
  | fuel+1, text =>
      match findSub sep text with
      | none => [text]
      | some i =>
          match splitKeepFuel sep fuel (text.drop (i + sep.length)) with
          | [] => [text.take i]
          | p :: ps => text.take i :: (sep ++ p) :: ps

/-- Split by a separator, keeping separators and dropping empty pieces;
the empty separator splits into single characters. -/
def splitKeep (sep : List Char) (text : List Char) : List (List Char) :=
  if sep.isEmpty then text.map (fun c => [c])
  else (splitKeepFuel sep text.length text).filter (fun p => !p.isEmpty)

/-- Separator selection: walk the priority list, stop at the first
separator that is empty (newSeps empty, no further fallback needed) or
that occurs in the text (newSeps = the remaining finer separators); if
none matches, the last candidate is used with no fallback. -/
def chooseSep : List (List Char) → List Char → (List Char × List (List Char))
  | [], _ => ([], [])
  | s :: rest, text =>
      if s.isEmpty then (s, [])
      else if (findSub s text).isSome then (s, rest)
      else
        match rest with
        | [] => (s, [])
        | _ :: _ => chooseSep rest text

/-- Total character length of a list of pieces. -/
def sumLens (l : List (List Char)) : Nat := (l.map List.length).sum

/-- The overlap-carrying pop loop of the packer: after emitting a chunk,
drop pieces from the front of the window while it is longer than
`overlap` characters or cannot accommodate the incoming piece. -/
def popOverlap (co cs dlen : Nat) : List (List Char) → List (List Char)
  | [] => []
  | g :: rest =>
      if sumLens (g :: rest) > co
          ∨ (sumLens (g :: rest) + dlen > cs ∧ sumLens (g :: rest) > 0) then
        popOverlap co cs dlen rest
      else g :: rest

/-- The packer: greedily append pieces to the current window; when the
next piece would push the window past `max_size`, emit the window as one
chunk and shrink it to at most `overlap` trailing characters. -/
def mergeSplitsAux (cs co : Nat) (cur : List (List Char)) :
    List (List Char) → List (List Char)
  | [] => if cur.flatten.isEmpty then [] else [cur.flatten]
  | d :: ds =>
      if sumLens cur + d.length > cs then
        if cur.isEmpty then mergeSplitsAux cs co [d] ds
        else
          (if cur.flatten.isEmpty then [] else [cur.flatten])
            ++ mergeSplitsAux cs co (popOverlap co cs d.length cur ++ [d]) ds
      else mergeSplitsAux cs co (cur ++ [d]) ds

/-- Pack a run of fine pieces into chunks of at most `max_size`. -/
def mergeSplits (cs co : Nat) (splits : List (List Char)) : List (List Char) :=
  mergeSplitsAux cs co [] splits

/-- Splice packed runs of fine pieces around the already-final chunks
produced for oversized pieces. -/
def mergeRuns (cs co : Nat) (acc : List (List Char)) :
    List (Sum (List Char) (List (List Char))) → List (List Char)
  | [] => mergeSplits cs co acc
  | .inl g :: rest => mergeRuns cs co (acc ++ [g]) rest
  | .inr l :: rest => mergeSplits cs co acc ++ l ++ mergeRuns cs co [] rest

/-- The recursive splitter: pick the coarsest applicable separator, split,
keep pieces under `max_size` for packing, and recurse with the finer
separators on any piece still at or over `max_size` (the empty separator
forces a character-level cut).  The fuel is the separator-list length,
which strictly decreases at every recursion. -/
def recSplitF (cs co : Nat) : Nat → List (List Char) → List Char → List (List Char)
  | 0, _, text => [text]
  | fuel+1, seps, text =>
      let c := chooseSep seps text
      let splits := splitKeep c.1 text
      mergeRuns cs co [] (splits.map (fun s =>
        if s.length < cs then Sum.inl s
        else if c.2.isEmpty then Sum.inr [s]
        else Sum.inr (recSplitF cs co fuel c.2 s)))

/-- The separator priority list configured by `TextChunker.__init__`:
major section breaks, paragraph breaks, line breaks, sentences, clauses,
words, characters. -/
def chunkerSeparators : List (List Char) :=
  ["\n\n\n".toList, "\n\n".toList, "\n".toList, ". ".toList, ", ".toList,
   " ".toList, "".toList]

/-- Modelled from the spec: the repository's `TextChunker` delegates the
actual segmentation to the external recursive character splitter it
configures (only the separator priority list, the sizes and the
character-count length function are repository code), so the splitting
algorithm itself is not under `src/`; it is modelled here after §4.1 of
the design: try separators in priority order, fall back to the next-finer
separator only for a segment still exceeding `max_size` (down to a forced
character-level cut), and pack adjacent fine segments into chunks of at
most `max_size` characters carrying at most `overlap` trailing characters
of window into the next chunk. -/
def split_text (maxSize overlap : Nat) (text : List Char) : List (List Char) :=
  recSplitF maxSize overlap chunkerSeparators.length chunkerSeparators text

/-- `TextChunker.chunk_text`: wrap each produced segment in a `Document`,
stamping `chunk_id` and `chunk_size` over a copy of the given metadata. -/
def chunk_text (maxSize overlap : Nat) (text : String) (metadata : Dict) :
    List Document :=
  (split_text maxSize overlap text.toList).mapIdx (fun i chunk =>
    ⟨⟨chunk⟩, dUpdate metadata
      [("chunk_id", .int i), ("chunk_size", .int chunk.length)]⟩)

theorem sumLens_append (a b : List (List Char)) :
    sumLens (a ++ b) = sumLens a + sumLens b := by
  simp [sumLens]

theorem sumLens_singleton (d : List Char) : sumLens [d] = d.length := by
  simp [sumLens]

theorem length_flatten_eq_sumLens (l : List (List Char)) :
    l.flatten.length = sumLens l := by
  simp [sumLens]

theorem popOverlap_post (co cs dlen : Nat) (l : List (List Char)) :
    sumLens (popOverlap co cs dlen l) + dlen ≤ cs
    ∨ sumLens (popOverlap co cs dlen l) = 0 := by
  induction l with
  | nil =>
      right
      simp [popOverlap, sumLens]
  | cons g rest ih =>
      by_cases hc : sumLens (g :: rest) > co
          ∨ (sumLens (g :: rest) + dlen > cs ∧ sumLens (g :: rest) > 0)
      · simp only [popOverlap, if_pos hc]
        exact ih
      · simp only [popOverlap, if_neg hc]
        push_neg at hc
        by_cases h2 : sumLens (g :: rest) + dlen ≤ cs
        · exact Or.inl h2
        · right
          exact Nat.le_zero.mp (hc.2 (Nat.lt_of_not_le h2))

theorem mergeSplitsAux_bound (cs co : Nat) :
    ∀ (splits cur : List (List Char)),
      (∀ g ∈ splits, g.length ≤ cs) → sumLens cur ≤ cs →
      ∀ ch ∈ mergeSplitsAux cs co cur splits, ch.length ≤ cs := by
  intro splits
  induction splits with
  | nil =>
      intro cur hg hcur ch hch
      simp only [mergeSplitsAux] at hch
      by_cases he : cur.flatten.isEmpty
      · simp [he] at hch
      · simp only [he, Bool.false_eq_true, if_false, List.mem_singleton] at hch
        rw [hch, length_flatten_eq_sumLens]
        exact hcur
  | cons d ds ih =>
      intro cur hg hcur ch hch
      have hd : d.length ≤ cs := hg d (by simp)
      have hds : ∀ g ∈ ds, g.length ≤ cs := fun g hm => hg g (by simp [hm])
      simp only [mergeSplitsAux] at hch
      by_cases h1 : sumLens cur + d.length > cs
      · rw [if_pos h1] at hch
        by_cases h2 : cur.isEmpty
        · rw [if_pos h2] at hch
          refine ih [d] hds ?_ ch hch
          rw [sumLens_singleton]
          exact hd
        · rw [if_neg h2] at hch
          rcases List.mem_append.mp hch with hml | hmr
          · by_cases he : cur.flatten.isEmpty
            · simp [he] at hml
            · simp only [he, Bool.false_eq_true, if_false,
                List.mem_singleton] at hml
              rw [hml, length_flatten_eq_sumLens]
              exact hcur
          · refine ih (popOverlap co cs d.length cur ++ [d]) hds ?_ ch hmr
            rw [sumLens_append, sumLens_singleton]
            rcases popOverlap_post co cs d.length cur with hp | hp
            · exact hp
            · rw [hp]
              simpa using hd
      · rw [if_neg h1] at hch
        refine ih (cur ++ [d]) hds ?_ ch hch
        rw [sumLens_append, sumLens_singleton]
        exact Nat.le_of_not_lt h1

theorem mergeRuns_bound (cs co : Nat) :
    ∀ (items : List (Sum (List Char) (List (List Char))))
      (acc : List (List Char)),
      (∀ g, Sum.inl g ∈ items → g.length ≤ cs) →
      (∀ l, Sum.inr l ∈ items → ∀ ch ∈ l, ch.length ≤ cs) →
      (∀ g ∈ acc, g.length ≤ cs) →
      ∀ ch ∈ mergeRuns cs co acc items, ch.length ≤ cs := by
  intro items
  induction items with
  | nil =>
      intro acc hinl hinr hacc ch hch
      simp only [mergeRuns, mergeSplits] at hch
      exact mergeSplitsAux_bound cs co acc [] hacc (Nat.zero_le cs) ch hch
  | cons item rest ih =>
      cases item with
      | inl g =>
          intro acc hinl hinr hacc ch hch
          simp only [mergeRuns] at hch
          refine ih (acc ++ [g])
            (fun g2 hm => hinl g2 (by simp [hm]))
            (fun l hm => hinr l (by simp [hm])) ?_ ch hch
          intro g2 hm
          rcases List.mem_append.mp hm with hma | hmb
          · exact hacc g2 hma
          · rw [List.mem_singleton.mp hmb]
            exact hinl g (by simp)
      | inr l =>
          intro acc hinl hinr hacc ch hch
          simp only [mergeRuns, mergeSplits] at hch
          rcases List.mem_append.mp hch with hm1 | hm2
          · rcases List.mem_append.mp hm1 with hm3 | hm4
            · exact mergeSplitsAux_bound cs co acc [] hacc (Nat.zero_le cs) ch hm3
            · exact hinr l (by simp) ch hm4
          · exact ih []
              (fun g2 hm => hinl g2 (by simp [hm]))
              (fun l2 hm => hinr l2 (by simp [hm]))
              (by simp) ch hm2

theorem chooseSep_spec (text : List Char) :
    ∀ seps : List (List Char), [] ∈ seps →
    ((chooseSep seps text).1 = [] ∧ (chooseSep seps text).2 = [])
    ∨ ((chooseSep seps text).1 ≠ []
        ∧ [] ∈ (chooseSep seps text).2
        ∧ (chooseSep seps text).2.length < seps.length) := by
  intro seps
  induction seps with
  | nil =>
      intro h
      simp at h
  | cons s rest ih =>
      intro hmem
      by_cases hs : s.isEmpty
      · left
        have heq : chooseSep (s :: rest) text = (s, []) := by
          simp [chooseSep, hs]
        rw [heq]
        exact ⟨List.isEmpty_iff.mp hs, rfl⟩
      · have hsne : s ≠ [] := fun h => hs (by simp [h])
        have hrest : [] ∈ rest := by
          rcases List.mem_cons.mp hmem with h | h
          · exact absurd h.symm hsne
          · exact h
        by_cases hf : (findSub s text).isSome
        · right
          have heq : chooseSep (s :: rest) text = (s, rest) := by
            simp [chooseSep, hs, hf]
          rw [heq]
          exact ⟨hsne, hrest, Nat.lt_succ_self _⟩
        · cases rest with
          | nil => simp at hrest
          | cons r rs =>
              have heq : chooseSep (s :: r :: rs) text = chooseSep (r :: rs) text := by
                simp [chooseSep, hs, hf]
              rw [heq]
              rcases ih hrest with h | h
              · exact Or.inl h
              · exact Or.inr ⟨h.1, h.2.1, Nat.lt_succ_of_lt h.2.2⟩

theorem splitKeep_nil_sep (text : List Char) :
    ∀ p ∈ splitKeep [] text, p.length = 1 := by
  intro p hp
  simp only [splitKeep, List.isEmpty_nil, if_true] at hp
  obtain ⟨c, _, rfl⟩ := List.mem_map.mp hp
  rfl

theorem recSplitF_bound (cs co : Nat) (hcs : 1 ≤ cs) :
    ∀ (fuel : Nat) (seps : List (List Char)) (text : List Char),
      seps.length ≤ fuel → [] ∈ seps →
      ∀ ch ∈ recSplitF cs co fuel seps text, ch.length ≤ cs := by
  intro fuel
  induction fuel with
  | zero =>
      intro seps text hlen hmem
      have h1 : seps ≠ [] := List.ne_nil_of_mem hmem
      have h2 : 0 < seps.length := List.length_pos.mpr h1
      omega
  | succ fuel ih =>
      intro seps text hlen hmem ch hch
      simp only [recSplitF] at hch
      refine mergeRuns_bound cs co _ [] ?_ ?_ (by simp) ch hch
      · intro g hgm
        obtain ⟨s, hs, hfs⟩ := List.mem_map.mp hgm
        by_cases hlt : s.length < cs
        · rw [if_pos hlt] at hfs
          cases hfs
          exact Nat.le_of_lt hlt
        · rw [if_neg hlt] at hfs
          by_cases h2 : (chooseSep seps text).2.isEmpty
          · rw [if_pos h2] at hfs
            cases hfs
          · rw [if_neg h2] at hfs
            cases hfs
      · intro l hlm ch2 hch2
        obtain ⟨s, hs, hfs⟩ := List.mem_map.mp hlm
        by_cases hlt : s.length < cs
        · rw [if_pos hlt] at hfs
          cases hfs
        · rw [if_neg hlt] at hfs
          rcases chooseSep_spec text seps hmem with ⟨h1, h2⟩ | ⟨h1, h2, h3⟩
          · have h2b : (chooseSep seps text).2.isEmpty = true := by simp [h2]
            rw [if_pos h2b] at hfs
            cases hfs
            rw [h1] at hs
            rw [List.mem_singleton.mp hch2]
            rw [splitKeep_nil_sep text s hs]
            exact hcs
          · have h2b : ¬ ((chooseSep seps text).2.isEmpty = true) :=
              fun hT => (List.ne_nil_of_mem h2) (List.isEmpty_iff.mp hT)
            rw [if_neg h2b] at hfs
            cases hfs
            exact ih (chooseSep seps text).2 s (by omega) h2 ch2 hch2

/-- C3 counterexample: with `max_size = 4`, `overlap = 2` and the text
`"aaa bbb"` (length 7 ≥ max_size + overlap), the Chunker split cuts at the
word boundary into `"aaa"` and `" bbb"` — the trailing 2 characters of the
first segment are not the leading 2 characters of the second, so the
consecutive segments do not overlap by exactly `overlap` characters. -/
theorem C3_counterexample :
    split_text 4 2 "aaa bbb".toList = ["aaa".toList, " bbb".toList]
    ∧ "aaa bbb".toList.length ≥ 4 + 2
    ∧ ¬ " bbb".toList.take 2
        = "aaa".toList.drop ("aaa".toList.length - 2) := by
  refine ⟨by decide, by decide, by decide⟩

/-- C3 amended: for every input text and every configured `max_size ≥ 1`
and `overlap`, every segment produced by the Chunker split has length
≤ `max_size` — the hard size invariant holds even for pathological input
with a single token longer than `max_size`, where the empty separator
forces a character-level cut.  The exact-overlap clause is dropped:
consecutive segments split at separator boundaries may share fewer than
`overlap` characters (down to 0) even when the text is at least
`max_size + overlap` long. -/
theorem C3_amended_split_size_bound (maxSize overlap : Nat) (text : List Char)
    (hcs : 1 ≤ maxSize) :
    ∀ ch ∈ split_text maxSize overlap text, ch.length ≤ maxSize :=
  recSplitF_bound maxSize overlap hcs chunkerSeparators.length
    chunkerSeparators text (Nat.le_refl _) (by decide)

/-- Witness for C3 amended: a single 20-character token with
`max_size = 5` — forced character-level cuts, every segment within the
bound. -/
theorem C3_amended_split_size_bound_witness :
    1 ≤ 5
    ∧ ((split_text 5 2 "supercalifragilistic".toList).all
        (fun ch => ch.length ≤ 5)) = true :=
  ⟨by decide,
   List.all_eq_true.mpr (fun ch hch => decide_eq_true
     (C3_amended_split_size_bound 5 2 "supercalifragilistic".toList
       (by decide) ch hch))⟩

end ChatbotAgil
